import Mathlib

/-
Verification development for theGerk/cppFileWrapper (src/file.h).

The repository ships a single header declaring `Gerk::File`: a move-only
wrapper around a POSIX file descriptor with an open-mode enumeration, a
permission enumeration, a line-oriented reader, a raw writer and advisory
lock/unlock.  The header contains only declarations; the member-function
bodies are not part of the repository sources, so their behaviour is
modelled here from the specification (each such definition carries a
doc comment starting `Modelled from the spec:`).  The enumerations, the
declaration surface of the class and the platform flag values pulled in
through <fcntl.h> (x86-64 Linux glibc) are embedded directly from the
source.
-/

namespace Gerk

/-- The enumerators of `File::OpenMode` (src/file.h lines 15-389), in
declaration order.  It is a C++ scoped enumeration (`enum class ... : int`);
the header declares no `operator|` for it. -/
inductive OpenMode where
  | Append
  | Async
  | CloseOnExecute
  | Create
  | Direct
  | Directory
  | Dsync
  | Exclusive
  | LargeFile
  | NoAccessTime
  | NoControllingTerminal
  | NoFollow
  | NonBlocking
  | Path
  | Synchronous
  | Tempfile
  | Truncate
deriving DecidableEq, Repr, Fintype

/-- The underlying integer of each `File::OpenMode` enumerator: the value of
the corresponding O_* macro from <fcntl.h> on x86-64 Linux glibc (the header
includes <fcntl.h> and equates each enumerator to one macro).  Note that
O_LARGEFILE is 0 on this platform, O_SYNC is O_DSYNC plus a second bit and
O_TMPFILE contains O_DIRECTORY. -/
def OpenMode.toInt : OpenMode → Nat
  | .Append => 0o2000
  | .Async => 0o20000
  | .CloseOnExecute => 0o2000000
  | .Create => 0o100
  | .Direct => 0o40000
  | .Directory => 0o200000
  | .Dsync => 0o10000
  | .Exclusive => 0o200
  | .LargeFile => 0
  | .NoAccessTime => 0o1000000
  | .NoControllingTerminal => 0o400
  | .NoFollow => 0o400000
  | .NonBlocking => 0o4000
  | .Path => 0o10000000
  | .Synchronous => 0o4010000
  | .Tempfile => 0o20200000
  | .Truncate => 0o1000

/-- All enumerators of `File::OpenMode`: the only values of the scoped
enumeration expressible in the interface without a cast. -/
def OpenMode.all : List OpenMode :=
  [.Append, .Async, .CloseOnExecute, .Create, .Direct, .Directory, .Dsync,
   .Exclusive, .LargeFile, .NoAccessTime, .NoControllingTerminal, .NoFollow,
   .NonBlocking, .Path, .Synchronous, .Tempfile, .Truncate]

/-- The enumerators of `File::Permissions` (src/file.h lines 391-406). -/
inductive Permissions where
  | UserRead
  | UserWrite
  | UserExecute
  | GroupRead
  | GroupWrite
  | GroupExecute
  | OtherRead
  | OtherWrite
  | OtherExecute
  | SetUserId
  | SetGroupId
  | Sticky
deriving DecidableEq, Repr

/-- The underlying integer of each `File::Permissions` enumerator (the S_I*
macros from <sys/stat.h>). -/
def Permissions.toInt : Permissions → Nat
  | .UserRead => 0o400
  | .UserWrite => 0o200
  | .UserExecute => 0o100
  | .GroupRead => 0o40
  | .GroupWrite => 0o20
  | .GroupExecute => 0o10
  | .OtherRead => 0o4
  | .OtherWrite => 0o2
  | .OtherExecute => 0o1
  | .SetUserId => 0o4000
  | .SetGroupId => 0o2000
  | .Sticky => 0o1000

/-- The combined platform request for a set of options, as the spec
describes it: the bitwise OR of the platform values of the options in the
set. -/
def combineFlags (opts : List OpenMode) : Nat :=
  opts.foldl (fun acc o => Nat.lor acc o.toInt) 0

/-! ### The declaration surface of `class File` (src/file.h lines 408-423)

`File` declares, besides the two `write` overloads, `readLine`, `lock` and
`unlock`: a converting constructor from a path, a move constructor, and a
destructor.  The availability of the remaining special member functions is
determined by the C++ implicit special-member rules, which we encode as
functions of the declared-member list. -/

/-- The kinds of C++ special member functions (plus the header's converting
"open" constructor, which counts as a user-declared constructor). -/
inductive Member where
  | openCtor
  | defaultCtor
  | copyCtor
  | copyAssign
  | moveCtor
  | moveAssign
  | dtor
deriving DecidableEq, Repr, Fintype

/-- The members declared by `class File` in src/file.h lines 412-414:
`File(const std::string&, OpenMode, Permissions)`, `File(File&&)`,
`~File()`.  No default constructor, copy constructor, copy assignment,
move assignment or `operator=` of any kind is declared. -/
def File.declaredMembers : List Member := [.openCtor, .moveCtor, .dtor]

/-- C++ rule: the default constructor is implicitly declared only when the
class declares no constructor at all. -/
def defaultCtorAvailable (decls : List Member) : Bool :=
  decls.contains .defaultCtor ||
    !(decls.contains .openCtor || decls.contains .copyCtor ||
      decls.contains .moveCtor)

/-- C++ rule ([class.copy.ctor]): the implicitly-declared copy constructor
is defined as deleted when the class has a user-declared move constructor
or move assignment operator. -/
def copyCtorAvailable (decls : List Member) : Bool :=
  decls.contains .copyCtor ||
    !(decls.contains .moveCtor || decls.contains .moveAssign)

/-- C++ rule ([class.copy.assign]): the implicitly-declared copy assignment
operator is defined as deleted when the class has a user-declared move
constructor or move assignment operator. -/
def copyAssignAvailable (decls : List Member) : Bool :=
  decls.contains .copyAssign ||
    !(decls.contains .moveCtor || decls.contains .moveAssign)

/-- C++ rule: a move assignment operator is implicitly declared only when
the class declares no copy constructor, no copy assignment, no move
constructor and no destructor. -/
def moveAssignAvailable (decls : List Member) : Bool :=
  decls.contains .moveAssign ||
    !(decls.contains .copyCtor || decls.contains .copyAssign ||
      decls.contains .moveCtor || decls.contains .dtor)

/-- The constructors usable by a client of the class: declared constructors
plus the implicitly available ones, minus the deleted ones. -/
def ctorAvailable (decls : List Member) (c : Member) : Bool :=
  match c with
  | .openCtor => decls.contains .openCtor
  | .defaultCtor => defaultCtorAvailable decls
  | .copyCtor => copyCtorAvailable decls
  | .moveCtor => decls.contains .moveCtor
  | _ => false

/-! ### Handle lifecycle: move and destruction (claims about ownership)

The bodies of `File(File&&)` and `~File()` are not in the repository
sources, so the lifecycle is modelled from the spec as a labelled
transition system over a world of handle objects. -/

/-- Modelled from the spec: the state of a world of `File` handles (the
bodies of the move constructor and destructor are missing from src/).
`owner h` is the descriptor owned by handle `h` (`none` for a moved-from,
destroyed or never-created handle); `closedCount d` counts how many times
the platform `close` call was issued on descriptor `d`. -/
structure Sys where
  owner : Nat → Option Nat
  closedCount : Nat → Nat

/-- Lifecycle events: move construction of handle `dst` from handle `src`,
and destruction of a handle. -/
inductive Ev where
  | move (src dst : Nat)
  | destroy (h : Nat)
deriving DecidableEq, Repr

/-- Modelled from the spec: the effect of one lifecycle event.  Move
construction transfers the source's descriptor (if any) to the new handle
and leaves the source owning nothing, issuing no `close` and no
duplication.  Destruction closes the owned descriptor exactly once when
the handle owns one and is a no-op otherwise. -/
def stepSys (s : Sys) : Ev → Sys
  | .move src dst =>
    { owner := fun h =>
        if h = dst then s.owner src else if h = src then none else s.owner h,
      closedCount := s.closedCount }
  | .destroy h =>
    match s.owner h with
    | some fd =>
      { owner := fun h2 => if h2 = h then none else s.owner h2,
        closedCount := fun d =>
          if d = fd then s.closedCount d + 1 else s.closedCount d }
    | none => s

/-- Running a sequence of lifecycle events. -/
def runSys (s : Sys) : List Ev → Sys
  | [] => s
  | e :: t => runSys (stepSys s e) t

/-- A move event is well formed when the destination is a freshly created
handle: a distinct object that does not yet own anything (in C++ a move
constructor always initialises a brand-new object). -/
def ValidEv (s : Sys) : Ev → Prop
  | .move src dst => s.owner dst = none ∧ dst ≠ src
  | .destroy _ => True

/-- A well-formed event sequence from a state. -/
def ValidSeq (s : Sys) : List Ev → Prop
  | [] => True
  | e :: t => ValidEv s e ∧ ValidSeq (stepSys s e) t

/-- At most one handle owns any given descriptor. -/
def UniqueOwner (s : Sys) : Prop :=
  ∀ h1 h2 d, s.owner h1 = some d → s.owner h2 = some d → h1 = h2

/-- No handle owns descriptor `d` in state `s`. -/
def NoOwner (s : Sys) (d : Nat) : Prop := ∀ h, s.owner h ≠ some d

/-- The exactly-once accounting invariant for one descriptor `d`: either
some handle still owns `d` and `d` has never been closed, or no handle owns
`d` any more and `d` has been closed exactly once. -/
def ClosedOnce (s : Sys) (d : Nat) : Prop :=
  ((∃ h, s.owner h = some d) ∧ s.closedCount d = 0) ∨
    (NoOwner s d ∧ s.closedCount d = 1)

/-- The initial world for one freshly opened descriptor: handle `h0` owns
`d0`, no other handle exists, nothing has been closed. -/
def initSys (h0 d0 : Nat) : Sys :=
  { owner := fun h => if h = h0 then some d0 else none,
    closedCount := fun _ => 0 }

theorem uniqueOwner_step {s : Sys} (hu : UniqueOwner s) {e : Ev}
    (hv : ValidEv s e) : UniqueOwner (stepSys s e) := by
  cases e with
  | move src dst =>
    obtain ⟨hdst, hne⟩ := hv
    intro h1 h2 d h1d h2d
    simp only [stepSys] at h1d h2d
    by_cases e1 : h1 = dst <;> by_cases e2 : h2 = dst <;>
      simp [e1, e2] at h1d h2d
    · exact e1.trans e2.symm
    · -- h1 = dst owns via src, h2 ≠ dst
      by_cases e2s : h2 = src
      · simp [e2s] at h2d
      · simp [e2s] at h2d
        exact absurd (hu src h2 d h1d h2d) (fun h => e2s h.symm)
    · by_cases e1s : h1 = src
      · simp [e1s] at h1d
      · simp [e1s] at h1d
        exact absurd (hu h1 src d h1d h2d) e1s
    · by_cases e1s : h1 = src
      · simp [e1s] at h1d
      · by_cases e2s : h2 = src
        · simp [e2s] at h2d
        · simp [e1s] at h1d
          simp [e2s] at h2d
          exact hu h1 h2 d h1d h2d
  | destroy h =>
    intro h1 h2 d h1d h2d
    simp only [stepSys] at h1d h2d
    cases hfd : s.owner h with
    | some fd =>
      simp only [hfd] at h1d h2d
      by_cases e1 : h1 = h <;> by_cases e2 : h2 = h <;>
        simp [e1, e2] at h1d h2d
      exact hu h1 h2 d h1d h2d
    | none =>
      simp only [hfd] at h1d h2d
      exact hu h1 h2 d h1d h2d

theorem closedOnce_step {s : Sys} {d : Nat} (hu : UniqueOwner s)
    (hc : ClosedOnce s d) {e : Ev} (hv : ValidEv s e) :
    ClosedOnce (stepSys s e) d := by
  cases e with
  | move src dst =>
    obtain ⟨hdst, hne⟩ := hv
    rcases hc with ⟨⟨h, hh⟩, hc0⟩ | ⟨hno, hc1⟩
    · left
      constructor
      · by_cases hs : h = src
        · exact ⟨dst, by simp [stepSys, ← hs, hh]⟩
        · have hhd : h ≠ dst := by
            intro e2
            rw [e2, hdst] at hh
            exact Option.noConfusion hh
          exact ⟨h, by simp [stepSys, hhd, hs, hh]⟩
      · simpa [stepSys] using hc0
    · right
      refine ⟨?_, by simpa [stepSys] using hc1⟩
      intro h
      simp only [stepSys]
      by_cases h1 : h = dst
      · simpa [h1] using hno src
      · by_cases h2 : h = src
        · simp [h2, Ne.symm hne]
        · simpa [h1, h2] using hno h
  | destroy h =>
    cases hfd : s.owner h with
    | none => simpa [stepSys, hfd] using hc
    | some fd =>
      rcases hc with ⟨⟨h2, hh2⟩, hc0⟩ | ⟨hno, hc1⟩
      · by_cases hfdd : fd = d
        · right
          constructor
          · intro h3
            simp only [stepSys, hfd]
            by_cases h3h : h3 = h
            · simp [h3h]
            · simp only [h3h, if_neg]
              intro hcontra
              exact h3h (hu h3 h d hcontra (hfdd ▸ hfd))
          · simp [stepSys, hfd, hfdd, hc0]
        · left
          have hh2h : h2 ≠ h := by
            intro e2
            rw [e2, hfd] at hh2
            exact hfdd (Option.some.inj hh2)
          have hdfd : d ≠ fd := fun e2 => hfdd e2.symm
          constructor
          · exact ⟨h2, by simp [stepSys, hfd, hh2h, hh2]⟩
          · simp [stepSys, hfd, hdfd, hc0]
      · have hfdd : fd ≠ d := fun e2 => hno h (e2 ▸ hfd)
        have hdfd : d ≠ fd := fun e2 => hfdd e2.symm
        right
        constructor
        · intro h3
          simp only [stepSys, hfd]
          by_cases h3h : h3 = h
          · simp [h3h]
          · simpa [h3h] using hno h3
        · simp [stepSys, hfd, hdfd, hc1]

theorem runSys_inv (d : Nat) (t : List Ev) :
    ∀ s : Sys, UniqueOwner s → ClosedOnce s d → ValidSeq s t →
      UniqueOwner (runSys s t) ∧ ClosedOnce (runSys s t) d := by
  induction t with
  | nil => exact fun s hu hc _ => ⟨hu, hc⟩
  | cons e t ih =>
    intro s hu hc hv
    obtain ⟨hve, hvt⟩ := hv
    exact ih (stepSys s e) (uniqueOwner_step hu hve) (closedOnce_step hu hc hve) hvt

theorem uniqueOwner_init (h0 d0 : Nat) : UniqueOwner (initSys h0 d0) := by
  intro h1 h2 d e1 e2
  simp only [initSys] at e1 e2
  split at e1 <;> split at e2 <;> simp_all

theorem closedOnce_init (h0 d0 : Nat) : ClosedOnce (initSys h0 d0) d0 :=
  Or.inl ⟨⟨h0, by simp [initSys]⟩, rfl⟩

/-! ### Line-oriented reading (`File::readLine`) -/

/-- Modelled from the spec: the byte-stream state visible to `readLine`
(the body of `File::readLine` is missing from src/) — the file's bytes and
the current file offset. -/
structure FileState where
  content : List Char
  offset : Nat
deriving DecidableEq, Repr

/-- Modelled from the spec (§4.2, body of `File::readLine` missing from
src/): read from the current offset until a newline or end-of-stream,
return the line without the delimiter and advance the offset past any
consumed delimiter; return `none` only when zero bytes were available at
end-of-stream. -/
def readLine (s : FileState) : Option (List Char) × FileState :=
  if (s.content.drop s.offset).isEmpty then (none, s)
  else
    (some ((s.content.drop s.offset).takeWhile (fun c => c ≠ '\n')),
     { content := s.content,
       offset := s.offset +
         (if ((s.content.drop s.offset).takeWhile (fun c => c ≠ '\n')).length <
             (s.content.drop s.offset).length then
            ((s.content.drop s.offset).takeWhile (fun c => c ≠ '\n')).length + 1
          else
            ((s.content.drop s.offset).takeWhile (fun c => c ≠ '\n')).length) })

/-- One outcome of an underlying platform read of one byte. -/
inductive ReadRes where
  | byte (b : Char)
  | eofMark
  | fail (code : Nat)
deriving DecidableEq, Repr

/-- Modelled from the spec: `readLine` as a loop over platform read
outcomes.  Bytes accumulate until a newline or end-of-stream; a platform
read error aborts the call with a distinct error result (never with the
absent result), and absent arises only with nothing buffered at
end-of-stream. -/
def readLineLoop : List ReadRes → List Char → Except Nat (Option (List Char))
  | [], acc => .ok (if acc.isEmpty then none else some acc.reverse)
  | .eofMark :: _, acc => .ok (if acc.isEmpty then none else some acc.reverse)
  | .fail e :: _, _ => .error e
  | .byte b :: rest, acc =>
    if b = '\n' then .ok (some acc.reverse) else readLineLoop rest (b :: acc)

/-! ### Raw writing (`File::write`) -/

/-- One outcome of an underlying platform `write` call. -/
inductive WriteRes where
  | wrote (k : Nat)
  | eintr
  | fail (code : Nat)
deriving DecidableEq, Repr

/-- Result of the write retry loop: all bytes transferred, a hard platform
error, or the supplied outcome sequence was exhausted with bytes still
pending (the loop itself never stops there). -/
inductive WOut where
  | done
  | failed (code : Nat)
  | pending
deriving DecidableEq, Repr

/-- Modelled from the spec (§4.3, bodies of `File::write` missing from
src/): the retry loop.  Each platform call transfers a prefix of the
remaining data (a short write when fewer bytes than remain), a signal
interruption transfers nothing and is retried transparently, and a hard
error stops the loop; the loop finishes successfully only when no bytes
remain. -/
def writeLoopData : List WriteRes → List Char → List Char → WOut × List Char
  | _, [], out => (.done, out)
  | [], _ :: _, out => (.pending, out)
  | .wrote k :: rest, b :: data, out =>
    writeLoopData rest ((b :: data).drop k) (out ++ (b :: data).take k)
  | .eintr :: rest, b :: data, out => writeLoopData rest (b :: data) out
  | .fail e :: _, _ :: _, out => (.failed e, out)

/-- The `File` handle: it wraps exactly one descriptor (src/file.h line
409: `int fd`). -/
structure File where
  fd : Nat
deriving DecidableEq, Repr

/-- Modelled from the spec: the observable result of one `write` call on a
handle — the chaining value (`*this` on success, the platform error code
otherwise) and the bytes actually transferred to the descriptor; `none`
when the outcome sequence was too short to finish the loop. -/
def File.writeData (f : File) (outcomes : List WriteRes) (data : List Char) :
    Option (Except Nat File × List Char) :=
  match writeLoopData outcomes data [] with
  | (.done, out) => some (.ok f, out)
  | (.failed e, out) => some (.error e, out)
  | (.pending, _) => none

/-- Modelled from the spec: the `write(const std::string &data)` overload
writes the string's byte sequence. -/
def File.writeString (f : File) (outcomes : List WriteRes) (s : String) :
    Option (Except Nat File × List Char) :=
  f.writeData outcomes s.toList

/-- Modelled from the spec: the `write(const char *const data, const size_t
bytes)` overload writes the first `bytes` bytes of the buffer. -/
def File.writePtr (f : File) (outcomes : List WriteRes) (buf : List Char)
    (bytes : Nat) : Option (Except Nat File × List Char) :=
  f.writeData outcomes (buf.take bytes)

/-! ### Opening (`File::File(const std::string&, OpenMode, Permissions)`) -/

/-- A directory entry: a regular file or a symbolic link (with its
target).  Directories and devices are irrelevant to the claims. -/
inductive Entry where
  | file
  | symlink (target : String)
deriving DecidableEq, Repr

/-- The open errors the claims mention. -/
inductive OpenError where
  | AlreadyExists
  | NotFound
deriving DecidableEq, Repr

/-- A filesystem together with the process's descriptor accounting. -/
structure FS where
  entries : List (String × Entry)
  nextFd : Nat
  openFds : List Nat
deriving DecidableEq, Repr

def FS.lookup (fs : FS) (p : String) : Option Entry :=
  (fs.entries.find? (fun pe => pe.1 == p)).map (fun pe => pe.2)

/-- Modelled from the spec (§4.1, body of the opening constructor missing
from src/): issue the open request.  With Create and Exclusive both
requested, any existing entry — including a symbolic link, whose target is
never consulted — fails with AlreadyExists; a missing path without Create
fails with NotFound.  Success allocates a fresh descriptor; failure
produces no handle and leaves the filesystem and the descriptor table
untouched. -/
def openFile (fs : FS) (path : String) (opts : List OpenMode) :
    Except OpenError Nat × FS :=
  if (fs.lookup path).isSome then
    if opts.contains .Create && opts.contains .Exclusive then
      (.error .AlreadyExists, fs)
    else
      (.ok fs.nextFd,
       { fs with nextFd := fs.nextFd + 1,
                 openFds := fs.nextFd :: fs.openFds })
  else
    if opts.contains .Create then
      (.ok fs.nextFd,
       { entries := (path, .file) :: fs.entries,
         nextFd := fs.nextFd + 1,
         openFds := fs.nextFd :: fs.openFds })
    else (.error .NotFound, fs)

/-! ### Advisory locking (`File::lock` / `File::unlock`) -/

/-- A lock or unlock request by a handle. -/
inductive LockEv where
  | acquire (h : Nat)
  | release (h : Nat)
deriving DecidableEq, Repr

/-- Modelled from the spec (§4.4, bodies of `lock`/`unlock` missing from
src/): the whole-file advisory lock is its holder, if any.  `lock()` is
enabled only when the lock is free — a handle calling it while another
holds the lock blocks, i.e. its acquisition event cannot occur; `unlock()`
releases the caller's lock and is a no-op for a non-holder. -/
def lockStep (st : Option Nat) : LockEv → Option (Option Nat)
  | .acquire h =>
    match st with
    | none => some (some h)
    | some _ => none
  | .release h => some (if st = some h then none else st)

/-- A sequence of lock events, each enabled when its turn comes. -/
def LockTrace (st : Option Nat) : List LockEv → Prop
  | [] => True
  | e :: t =>
    match lockStep st e with
    | some st2 => LockTrace st2 t
    | none => False

/-! ### Helper lemmas -/

theorem destroy_noop {s : Sys} {h : Nat} (hh : s.owner h = none) :
    stepSys s (.destroy h) = s := by
  simp [stepSys, hh]

/-- The first `n` results of repeated `readLine` calls. -/
def readsN (s : FileState) : Nat → List (Option (List Char))
  | 0 => []
  | n + 1 => (readLine s).1 :: readsN (readLine s).2 n

theorem readLine_eq_some (s : FileState)
    (h : ¬(s.content.drop s.offset).isEmpty = true) :
    readLine s =
      (some ((s.content.drop s.offset).takeWhile (fun c => c ≠ '\n')),
       { content := s.content,
         offset := s.offset +
           (if ((s.content.drop s.offset).takeWhile
                  (fun c => c ≠ '\n')).length <
               (s.content.drop s.offset).length then
              ((s.content.drop s.offset).takeWhile
                 (fun c => c ≠ '\n')).length + 1
            else
              ((s.content.drop s.offset).takeWhile
                 (fun c => c ≠ '\n')).length) }) := by
  rw [readLine, if_neg h]

theorem readLine_none_iff (s : FileState) :
    (readLine s).1 = none ↔ s.content.length ≤ s.offset := by
  by_cases h : (s.content.drop s.offset).isEmpty
  · rw [readLine, if_pos h]
    simpa [List.isEmpty_iff, List.drop_eq_nil_iff] using h
  · rw [readLine_eq_some s h]
    have hnd : ¬s.content.length ≤ s.offset := by
      simpa [List.isEmpty_iff, List.drop_eq_nil_iff] using h
    simp [hnd]

theorem readLine_some (s : FileState) (l : List Char)
    (hl : (readLine s).1 = some l) :
    '\n' ∉ l ∧ (readLine s).2.content = s.content ∧
      ((readLine s).2.offset = s.offset + l.length + 1 ∨
        ((readLine s).2.offset = s.offset + l.length ∧
          (readLine s).2.offset = s.content.length)) := by
  by_cases h : (s.content.drop s.offset).isEmpty
  · rw [readLine, if_pos h] at hl
    exact Option.noConfusion hl
  · have he := readLine_eq_some s h
    rw [he] at hl
    have hlv := Option.some.inj hl
    rw [he]
    refine ⟨?_, rfl, ?_⟩
    · intro hmem
      rw [← hlv] at hmem
      have hp := List.mem_takeWhile_imp hmem
      simp at hp
    · have hle : ((s.content.drop s.offset).takeWhile
          (fun c => c ≠ '\n')).length ≤ (s.content.drop s.offset).length :=
        ( List.takeWhile_prefix _).length_le
      have hoff : s.offset < s.content.length := by
        have := h
        simp [List.isEmpty_iff, List.drop_eq_nil_iff] at this
        omega
      have hlen : (s.content.drop s.offset).length =
          s.content.length - s.offset := List.length_drop _ _
      rcases lt_or_eq_of_le hle with hlt | heq
      · left
        rw [if_pos hlt, ← hlv]
        dsimp only
        omega
      · right
        rw [if_neg (by omega), ← hlv]
        dsimp only
        constructor
        · rfl
        · omega

theorem readLineLoop_acc_ne (rs : List ReadRes) :
    ∀ acc : List Char, acc ≠ [] → readLineLoop rs acc ≠ .ok none := by
  induction rs with
  | nil =>
    intro acc hacc
    simp [readLineLoop, hacc]
  | cons r rest ih =>
    intro acc hacc
    cases r with
    | byte b =>
      by_cases hb : b = '\n'
      · simp [readLineLoop, hb]
      · simp only [readLineLoop, if_neg hb]
        exact ih (b :: acc) (by simp)
    | eofMark => simp [readLineLoop, hacc]
    | fail e => simp [readLineLoop]

theorem readLineLoop_ok_none (rs : List ReadRes) (acc : List Char)
    (hok : readLineLoop rs acc = .ok none) :
    acc = [] ∧ (rs = [] ∨ ∃ t, rs = ReadRes.eofMark :: t) := by
  cases rs with
  | nil =>
    cases hacc : acc with
    | nil => exact ⟨rfl, Or.inl rfl⟩
    | cons x xs =>
      rw [hacc] at hok
      simp [readLineLoop] at hok
  | cons r rest =>
    cases r with
    | byte b =>
      by_cases hb : b = '\n'
      · simp [readLineLoop, hb] at hok
      · simp only [readLineLoop, if_neg hb] at hok
        exact absurd hok (readLineLoop_acc_ne rest (b :: acc) (by simp))
    | eofMark =>
      cases hacc : acc with
      | nil => exact ⟨rfl, Or.inr ⟨rest, rfl⟩⟩
      | cons x xs =>
        rw [hacc] at hok
        simp [readLineLoop] at hok
    | fail e => simp [readLineLoop] at hok

theorem readLineLoop_fail_surfaces (e : Nat) (rest : List ReadRes) :
    ∀ pre : List Char, (∀ b ∈ pre, b ≠ '\n') → ∀ acc : List Char,
      readLineLoop (pre.map ReadRes.byte ++ .fail e :: rest) acc =
        .error e := by
  intro pre
  induction pre with
  | nil => intro _ acc; simp [readLineLoop]
  | cons b pre ih =>
    intro hpre acc
    have hb : b ≠ '\n' := hpre b (List.mem_cons_self _ _)
    simp only [List.map_cons, List.cons_append, readLineLoop, if_neg hb]
    exact ih (fun c hc => hpre c (List.mem_cons_of_mem _ hc)) (b :: acc)

theorem writeLoopData_done (o : List WriteRes) :
    ∀ data out : List Char, (writeLoopData o data out).1 = .done →
      (writeLoopData o data out).2 = out ++ data := by
  induction o with
  | nil =>
    intro data out h
    cases data with
    | nil => simp [writeLoopData]
    | cons b data => simp [writeLoopData] at h
  | cons r rest ih =>
    intro data out h
    cases data with
    | nil => simp [writeLoopData]
    | cons b data =>
      cases r with
      | wrote k =>
        simp only [writeLoopData] at h ⊢
        rw [ih ((b :: data).drop k) (out ++ (b :: data).take k) h,
          List.append_assoc, List.take_append_drop]
      | eintr =>
        simp only [writeLoopData] at h ⊢
        exact ih (b :: data) out h
      | fail e2 => simp [writeLoopData] at h

theorem writeLoopData_no_fail (o : List WriteRes) :
    (∀ e, WriteRes.fail e ∉ o) →
    ∀ (data out : List Char) (e : Nat),
      (writeLoopData o data out).1 ≠ .failed e := by
  induction o with
  | nil =>
    intro _ data out e
    cases data with
    | nil => simp [writeLoopData]
    | cons b data => simp [writeLoopData]
  | cons r rest ih =>
    intro hno data out e
    cases data with
    | nil => simp [writeLoopData]
    | cons b data =>
      have hno2 : ∀ e2, WriteRes.fail e2 ∉ rest := fun e2 he2 =>
        hno e2 (List.mem_cons_of_mem _ he2)
      cases r with
      | wrote k =>
        simp only [writeLoopData]
        exact ih hno2 ((b :: data).drop k) (out ++ (b :: data).take k) e
      | eintr =>
        simp only [writeLoopData]
        exact ih hno2 (b :: data) out e
      | fail e2 => exact absurd (List.mem_cons_self _ _) (hno e2)

theorem lockTrace_release_before (a b : Nat) :
    ∀ mid post : List LockEv,
      LockTrace (some a) (mid ++ LockEv.acquire b :: post) →
      LockEv.release a ∈ mid := by
  intro mid
  induction mid with
  | nil =>
    intro post ht
    simp [LockTrace, lockStep] at ht
  | cons e mid ih =>
    intro post ht
    cases e with
    | acquire h => simp [LockTrace, lockStep] at ht
    | release h =>
      by_cases hha : h = a
      · subst hha; exact List.mem_cons_self _ _
      · simp only [List.cons_append, LockTrace, lockStep] at ht
        rw [if_neg (by simpa using Ne.symm hha)] at ht
        exact List.mem_cons_of_mem _ (ih post ht)

/-! ### Claim theorems -/

/-- C1: the spec requires Open's options parameter to carry a combination
of options (a set, not a single enum value) whose platform bits are ORed
into the request.  The header's constructor takes a single scoped-enum
`OpenMode` value and declares no `operator|`, so the only option values
expressible through the interface are the seventeen enumerators — and no
enumerator's platform value equals the combined bits of even the
Create-with-Exclusive combination that the header's own flag documentation
calls for.  The combined request is therefore not expressible through the
declared interface. -/
theorem c1_no_openMode_value_carries_combined_flags :
    ∀ m : OpenMode, m.toInt ≠ combineFlags [.Create, .Exclusive] := by
  decide

/-- C2: move construction hands the source's descriptor to the new handle,
leaves the source owning nothing, issues no platform close (all close
counts unchanged) and no duplication (the descriptor occurs once,
preserved by the at-most-one-owner invariant), and a subsequent destroy of
the moved-from source is a no-op. -/
theorem c2_move_transfers_ownership (s : Sys) (src dst : Nat)
    (hu : UniqueOwner s) (hv : ValidEv s (.move src dst)) :
    (stepSys s (.move src dst)).owner dst = s.owner src ∧
    (stepSys s (.move src dst)).owner src = none ∧
    (∀ d, (stepSys s (.move src dst)).closedCount d = s.closedCount d) ∧
    UniqueOwner (stepSys s (.move src dst)) ∧
    stepSys (stepSys s (.move src dst)) (.destroy src) =
      stepSys s (.move src dst) := by
  obtain ⟨hdst, hne⟩ := hv
  have h2 : (stepSys s (.move src dst)).owner src = none := by
    simp [stepSys, Ne.symm hne]
  exact ⟨by simp [stepSys], h2, fun d => rfl,
    uniqueOwner_step hu ⟨hdst, hne⟩, destroy_noop h2⟩

/-- C2 witness: handle 0 owning descriptor 5 is moved into fresh handle
1. -/
theorem c2_move_transfers_ownership_witness :
    (stepSys (initSys 0 5) (.move 0 1)).owner 1 = (initSys 0 5).owner 0 ∧
    (stepSys (initSys 0 5) (.move 0 1)).owner 0 = none ∧
    (∀ d, (stepSys (initSys 0 5) (.move 0 1)).closedCount d =
      (initSys 0 5).closedCount d) ∧
    UniqueOwner (stepSys (initSys 0 5) (.move 0 1)) ∧
    stepSys (stepSys (initSys 0 5) (.move 0 1)) (.destroy 0) =
      stepSys (initSys 0 5) (.move 0 1) :=
  c2_move_transfers_ownership (initSys 0 5) 0 1 (uniqueOwner_init 0 5)
    ⟨by simp [initSys], by decide⟩

/-- C3: starting from one handle owning one freshly opened descriptor,
over any well-formed sequence of moves and destructions the descriptor is
closed at most once, destroying a handle that owns nothing is a no-op, and
once no handle owns the descriptor any more it has been closed exactly
once (never leaked, never double-closed). -/
theorem c3_destruction_closes_exactly_once (h0 d0 : Nat) (t : List Ev)
    (hv : ValidSeq (initSys h0 d0) t) :
    (runSys (initSys h0 d0) t).closedCount d0 ≤ 1 ∧
    (∀ h, (runSys (initSys h0 d0) t).owner h = none →
      stepSys (runSys (initSys h0 d0) t) (.destroy h) =
        runSys (initSys h0 d0) t) ∧
    (NoOwner (runSys (initSys h0 d0) t) d0 →
      (runSys (initSys h0 d0) t).closedCount d0 = 1) := by
  obtain ⟨-, hc⟩ := runSys_inv d0 t (initSys h0 d0)
    (uniqueOwner_init h0 d0) (closedOnce_init h0 d0) hv
  refine ⟨?_, fun h hh => destroy_noop hh, ?_⟩
  · rcases hc with ⟨-, hc0⟩ | ⟨-, hc1⟩ <;> omega
  · intro hno
    rcases hc with ⟨⟨h, hh⟩, -⟩ | ⟨-, hc1⟩
    · exact absurd hh (hno h)
    · exact hc1

/-- C3 witness: handle 0 owns descriptor 5, is moved into handle 1, and
handle 1 is destroyed. -/
theorem c3_destruction_closes_exactly_once_witness :
    (runSys (initSys 0 5) [.move 0 1, .destroy 1]).closedCount 5 ≤ 1 ∧
    (∀ h, (runSys (initSys 0 5) [.move 0 1, .destroy 1]).owner h = none →
      stepSys (runSys (initSys 0 5) [.move 0 1, .destroy 1]) (.destroy h) =
        runSys (initSys 0 5) [.move 0 1, .destroy 1]) ∧
    (NoOwner (runSys (initSys 0 5) [.move 0 1, .destroy 1]) 5 →
      (runSys (initSys 0 5) [.move 0 1, .destroy 1]).closedCount 5 = 1) :=
  c3_destruction_closes_exactly_once 0 5 [.move 0 1, .destroy 1]
    ⟨⟨by simp [initSys], by decide⟩, trivial, trivial⟩

/-- C4: a returned line never contains the newline delimiter, the content
is untouched and the offset advances past the line and past a consumed
delimiter (or, for the final unterminated fragment, exactly to
end-of-stream, so the next call is absent); absent is returned exactly
when zero bytes remain; and on "a\nb\nc" the successive calls yield "a",
"b", "c", then absent, while on "a\nb\n" they yield "a", "b", then
absent. -/
theorem c4_readLine_line_protocol (s : FileState) (l : List Char)
    (hsome : (readLine s).1 = some l) :
    ('\n' ∉ l ∧ (readLine s).2.content = s.content ∧
      ((readLine s).2.offset = s.offset + l.length + 1 ∨
        ((readLine s).2.offset = s.offset + l.length ∧
          (readLine s).2.offset = s.content.length))) ∧
    (∀ s2 : FileState,
      ((readLine s2).1 = none ↔ s2.content.length ≤ s2.offset)) ∧
    readsN ⟨"a\nb\nc".toList, 0⟩ 4 =
      [some "a".toList, some "b".toList, some "c".toList, none] ∧
    readsN ⟨"a\nb\n".toList, 0⟩ 3 =
      [some "a".toList, some "b".toList, none] := by
  refine ⟨readLine_some s l hsome, readLine_none_iff, ?_, ?_⟩ <;> decide

/-- C4 witness: the first line of "ab\ncd". -/
theorem c4_readLine_line_protocol_witness :
    '\n' ∉ "ab".toList ∧
    (readLine ⟨"ab\ncd".toList, 0⟩).2.content = "ab\ncd".toList ∧
    ((readLine ⟨"ab\ncd".toList, 0⟩).2.offset = 0 + "ab".toList.length + 1 ∨
      ((readLine ⟨"ab\ncd".toList, 0⟩).2.offset = 0 + "ab".toList.length ∧
        (readLine ⟨"ab\ncd".toList, 0⟩).2.offset =
          "ab\ncd".toList.length)) :=
  (c4_readLine_line_protocol ⟨"ab\ncd".toList, 0⟩ "ab".toList (by decide)).1

/-- C5: a write that reports success transferred every requested byte in
order (a short write is never reported as done) and returns the same
handle for chaining; and when the platform outcomes contain no hard error
— only short writes and signal interruptions — the call never reports a
failure. -/
theorem c5_write_transfers_all_bytes (f : File) (o : List WriteRes)
    (data : List Char) :
    (∀ g out, f.writeData o data = some (.ok g, out) →
      g = f ∧ out = data) ∧
    ((∀ e, WriteRes.fail e ∉ o) →
      ∀ e out, f.writeData o data ≠ some (.error e, out)) := by
  constructor
  · intro g out hok
    unfold File.writeData at hok
    rcases hres : writeLoopData o data [] with ⟨w, outw⟩
    rw [hres] at hok
    cases w with
    | done =>
      have h2 := writeLoopData_done o data [] (by rw [hres])
      rw [hres] at h2
      simp only [List.nil_append] at h2
      simp only [Option.some.injEq, Prod.mk.injEq] at hok
      obtain ⟨hg, hout⟩ := hok
      refine ⟨?_, ?_⟩
      · cases hg; rfl
      · rw [← hout]; exact h2
    | failed e => simp at hok
    | pending => simp at hok
  · intro hno e out hbad
    unfold File.writeData at hbad
    rcases hres : writeLoopData o data [] with ⟨w, outw⟩
    rw [hres] at hbad
    cases w with
    | done => simp at hbad
    | failed e2 =>
      have h2 := writeLoopData_no_fail o hno data [] e2
      rw [hres] at h2
      exact h2 rfl
    | pending => simp at hbad

/-- C5 witness: "hello" written through a short write of 2 bytes, a signal
interruption and a final write of 3 bytes. -/
theorem c5_write_transfers_all_bytes_witness :
    ((⟨3⟩ : File) = ⟨3⟩ ∧ "hello".toList = "hello".toList) ∧
    (⟨3⟩ : File).writeData [.wrote 2, .eintr, .wrote 3] "hello".toList ≠
      some (.error 7, []) :=
  ⟨(c5_write_transfers_all_bytes ⟨3⟩ [.wrote 2, .eintr, .wrote 3]
      "hello".toList).1 ⟨3⟩ "hello".toList (by rfl),
   (c5_write_transfers_all_bytes ⟨3⟩ [.wrote 2, .eintr, .wrote 3]
      "hello".toList).2 (by intro e he; simp at he) 7 []⟩

/-- C6: a platform read error encountered while scanning a line is
surfaced as the distinct error result, and the absent result arises only
with nothing buffered at end-of-stream — never from a read failure. -/
theorem c6_read_error_not_absent (pre : List Char) (e : Nat)
    (rest : List ReadRes) (acc : List Char)
    (hpre : ∀ b ∈ pre, b ≠ '\n') :
    readLineLoop (pre.map ReadRes.byte ++ .fail e :: rest) acc =
      .error e ∧
    (∀ rs acc2, readLineLoop rs acc2 = .ok none →
      acc2 = [] ∧ (rs = [] ∨ ∃ t, rs = ReadRes.eofMark :: t)) :=
  ⟨readLineLoop_fail_surfaces e rest pre hpre acc,
   fun rs acc2 => readLineLoop_ok_none rs acc2⟩

/-- C6 witness: two clean bytes then a platform failure with code 5. -/
theorem c6_read_error_not_absent_witness :
    readLineLoop ("ab".toList.map ReadRes.byte ++ .fail 5 :: []) [] =
      .error 5 ∧
    (([] : List Char) = [] ∧
      (([] : List ReadRes) = [] ∨
        ∃ t, ([] : List ReadRes) = ReadRes.eofMark :: t)) :=
  ⟨(c6_read_error_not_absent "ab".toList 5 [] [] (by decide)).1,
   (c6_read_error_not_absent "ab".toList 5 [] [] (by decide)).2 [] []
     (by rfl)⟩

/-- C7: opening a fresh path with Create succeeds; opening an existing
path with Create and Exclusive fails with AlreadyExists whatever the entry
is — in particular for a symbolic link with any target, which is never
consulted; and any open failure produces no handle and leaves the
filesystem and the descriptor table untouched (no leak). -/
theorem c7_open_create_exclusive (fs : FS) (p : String)
    (opts : List OpenMode) :
    (fs.lookup p = none → OpenMode.Create ∈ opts →
      (openFile fs p opts).1 = .ok fs.nextFd) ∧
    (∀ ent, fs.lookup p = some ent →
      OpenMode.Create ∈ opts → OpenMode.Exclusive ∈ opts →
      (openFile fs p opts).1 = .error .AlreadyExists) ∧
    (∀ e, (openFile fs p opts).1 = .error e →
      (openFile fs p opts).2 = fs) := by
  refine ⟨?_, ?_, ?_⟩
  · intro hnone hcr
    simp [openFile, hnone, hcr]
  · intro ent hent hcr hex
    simp [openFile, hent, hcr, hex]
  · intro e herr
    unfold openFile at herr ⊢
    by_cases hs : (fs.lookup p).isSome = true
    · rw [if_pos hs] at herr ⊢
      by_cases hce : (opts.contains OpenMode.Create &&
          opts.contains OpenMode.Exclusive) = true
      · rw [if_pos hce]
      · rw [if_neg hce] at herr
        exact absurd herr (by simp)
    · rw [if_neg hs] at herr ⊢
      by_cases hcr : opts.contains OpenMode.Create = true
      · rw [if_pos hcr] at herr
        exact absurd herr (by simp)
      · rw [if_neg hcr]

/-- C7 witness: Create on a fresh path succeeds; Create plus Exclusive on
a path bound to a symbolic link fails with AlreadyExists and changes
nothing. -/
theorem c7_open_create_exclusive_witness :
    (openFile ⟨[], 3, []⟩ "new" [.Create]).1 = .ok 3 ∧
    (openFile ⟨[("a", .symlink "elsewhere")], 3, []⟩ "a"
      [.Create, .Exclusive]).1 = .error .AlreadyExists ∧
    (openFile ⟨[("a", .symlink "elsewhere")], 3, []⟩ "a"
      [.Create, .Exclusive]).2 = ⟨[("a", .symlink "elsewhere")], 3, []⟩ :=
  ⟨(c7_open_create_exclusive ⟨[], 3, []⟩ "new" [.Create]).1
      (by decide) (by decide),
   (c7_open_create_exclusive ⟨[("a", .symlink "elsewhere")], 3, []⟩ "a"
      [.Create, .Exclusive]).2.1 (.symlink "elsewhere") (by decide)
      (by decide) (by decide),
   (c7_open_create_exclusive ⟨[("a", .symlink "elsewhere")], 3, []⟩ "a"
      [.Create, .Exclusive]).2.2 .AlreadyExists (by rfl)⟩

/-- C8: while handle `a` holds the advisory lock, another handle's
`lock()` cannot complete: any well-formed continuation in which `b`
acquires the lock contains `a`'s `unlock()` before it.  Moreover `b`'s
acquisition is disabled while `a` holds the lock, enabled once the lock is
free, and `a`'s `unlock()` frees the lock. -/
theorem c8_lock_mutual_exclusion (a b : Nat) (hba : b ≠ a)
    (mid post : List LockEv)
    (ht : LockTrace (some a) (mid ++ LockEv.acquire b :: post)) :
    LockEv.release a ∈ mid ∧
    lockStep (some a) (.acquire b) = none ∧
    lockStep none (.acquire b) = some (some b) ∧
    lockStep (some a) (.release a) = some none := by
  have _hba := hba
  refine ⟨lockTrace_release_before a b mid post ht, rfl, rfl, ?_⟩
  simp [lockStep]

/-- C8 witness: holder 0 releases, then handle 1 acquires. -/
theorem c8_lock_mutual_exclusion_witness :
    LockEv.release 0 ∈ [LockEv.release 0] ∧
    lockStep (some 0) (.acquire 1) = none ∧
    lockStep none (.acquire 1) = some (some 1) ∧
    lockStep (some 0) (.release 0) = some none :=
  c8_lock_mutual_exclusion 0 1 (by decide) [.release 0] []
    (by simp [LockTrace, lockStep])

/-- C9: `class File` makes no default constructor, no copy constructor, no
copy assignment and no move assignment available (the declared move
constructor suppresses the copy operations, and the declared move
constructor and destructor suppress the implicit move assignment); the
only usable constructors are the opening constructor and the move
constructor, so every `File` object arises from opening a path or from a
move. -/
theorem c9_file_is_move_only :
    defaultCtorAvailable File.declaredMembers = false ∧
    copyCtorAvailable File.declaredMembers = false ∧
    copyAssignAvailable File.declaredMembers = false ∧
    moveAssignAvailable File.declaredMembers = false ∧
    (∀ c : Member, ctorAvailable File.declaredMembers c = true ↔
      (c = .openCtor ∨ c = .moveCtor)) := by
  decide

/-- C10: the `std::string` overload of `write` behaves exactly as the
pointer-and-size overload applied to the string's buffer and its size. -/
theorem c10_write_overloads_agree (f : File) (o : List WriteRes)
    (s : String) :
    f.writeString o s = f.writePtr o s.toList s.length := by
  unfold File.writeString File.writePtr
  rw [show s.length = s.toList.length from rfl, List.take_length]

end Gerk
